import Mathlib

/- Verification development for the Qwen 3 ANE model implementation
   (src/anemll/models/qwen_model_no_cache.py).

   Modelling conventions for the shallow embedding:
   - Tensors are nested lists over the exact rationals; the working dtype
     casts of the source (float16) are identities in this exact model.
   - Transcendental float kernels of the source (sqrt, exp, cos, sin,
     fractional powers) are abstracted as function parameters: every
     property proved here holds for an arbitrary interpretation of those
     kernels, which subsumes their floating-point interpretation.
   - A Conv2d layer with kernel_size 1 applied to a [B, C, 1, S] tensor is
     the per-position linear map whose output channel o at position s is
     the dot product of weight row o with the input feature column at s;
     the view/permute plumbing around each such call in the source is
     folded into that per-position reading, which is recorded at each
     definition site.
-/

namespace Qwen

abbrev Vec := List ℚ
abbrev Mat := List (List ℚ)
abbrev T3 := List Mat
abbrev T4 := List (List Mat)

/-- Dot product of two feature vectors. -/
def dot (a b : Vec) : ℚ := (List.zipWith (· * ·) a b).sum

/-- A kernel-size-1 Conv2d with weight matrix W (rank-2 view of the
    [out, in, 1, 1] kernel) applied to a single feature vector: output
    row v is the dot product of weight row v with the input. -/
def convProj (W : Mat) (h : Vec) : Vec := W.map fun row => dot row h

/-- Partition sizes of the split vocabulary head: V // N rows per block
    plus one extra row for each of the first V mod N blocks, in block
    order (lines 429-433 of the constructor and 604-607 of the loader). -/
def splitSizes (V N : ℕ) : List ℕ :=
  (List.range N).map fun i => V / N + if i < V % N then 1 else 0

/-- torch.split with an explicit list of sizes: consecutive chunks of the
    given sizes taken from the front (line 608 of the loader). -/
def splitBySizes {α : Type} : List ℕ → List α → List (List α)
  | [], _ => []
  | s :: ss, l => l.take s :: splitBySizes ss (l.drop s)

/-- Composition of the head-weight loader (line 608: split the [V, H]
    weight into blocks of the partition sizes) with the forward projection
    (lines 501-523: run every shard and concatenate along the vocabulary
    axis, in shard order).  N generalizes the literal 16 of the source. -/
def lmHeadSplitForward (V N : ℕ) (W : Mat) (h : Vec) : Vec :=
  ((splitBySizes (splitSizes V N) W).map fun Wi => convProj Wi h).flatten

/-- repeat_kv (lines 184-189): with n_rep = 1 the input is returned
    unchanged; otherwise each kv head of a [B, Nkv, S, D] tensor gains a
    unit axis, is repeated n_rep times along it, and the two head axes are
    merged by the view, i.e. contiguous replication of each kv head. -/
def repeat_kv (hiddenStates : T4) (nRep : ℕ) : T4 :=
  if nRep = 1 then hiddenStates
  else hiddenStates.map fun batch =>
    (batch.map fun kvHead => List.replicate nRep kvHead).flatten

/-- torch.index_select along dim 1 of a [B, S, H] tensor with an index
    list (line 494). -/
def index_select_dim1 (hs : T3) (idx : List ℕ) : T3 :=
  hs.map fun batch => idx.map fun p => batch.getD p []

/-- Decode-mode position extraction (lines 486-494): outside prefill the
    single row at index current_pos is gathered with index_select along
    the sequence axis. -/
def extractHidden (hs : T3) (currentPos : ℕ) (inPrefill : Bool) : T3 :=
  if inPrefill then hs else index_select_dim1 hs [currentPos]

/-- The static slice hidden_states[:, p:p+1, :], which the extracted
    tensor is claimed to equal exactly. -/
def sliceOneRow (hs : T3) (p : ℕ) : T3 :=
  hs.map fun batch => (batch.drop p).take 1

/-- Arithmetic mean over the last axis, mean(-1) of the source. -/
def qmean (xs : Vec) : ℚ := xs.sum / (xs.length : ℚ)

/-- F.layer_norm over the last axis with weight w, no bias and eps inside
    the variance denominator; rs abstracts the float reciprocal square
    root, so rs (variance + eps) stands for 1 / sqrt (variance + eps). -/
def layer_norm (rs : ℚ → ℚ) (w : Vec) (eps : ℚ) (xs : Vec) : Vec :=
  List.zipWith
    (fun wi xi =>
      wi * ((xi - qmean xs) * rs (qmean (xs.map fun x => (x - qmean xs) ^ 2) + eps)))
    w xs

/-- QwenRMSNorm.forward, reachable body only (lines 93-97): subtract the
    last-axis mean, then layer_norm with the learned scale and no bias.
    The statements after the return (lines 100-104, true RMSNorm without
    mean subtraction) are unreachable Python code and therefore no part of
    this definition; the trailing float16 cast is an identity here. -/
def QwenRMSNorm_forward (rs : ℚ → ℚ) (w : Vec) (eps : ℚ) (hiddenStates : Vec) : Vec :=
  layer_norm rs w eps (hiddenStates.map fun x => x - qmean hiddenStates)

/-- QwenHeadNorm.forward, reachable body only (lines 115-118), identical
    in form to QwenRMSNorm.forward but applied to per-head rows; its
    lines 121-124 are likewise unreachable. -/
def QwenHeadNorm_forward (rs : ℚ → ℚ) (w : Vec) (eps : ℚ) (x : Vec) : Vec :=
  layer_norm rs w eps (x.map fun t => t - qmean x)

/-- Modelled from the wording of the claim (spec 4.1): subtract the mean
    over the last axis, then scale each centered entry by the learned
    per-channel weight and by the reciprocal square root of the centered
    variance plus eps, with no bias. -/
def centeredNormSpec (rs : ℚ → ℚ) (w : Vec) (eps : ℚ) (xs : Vec) : Vec :=
  List.zipWith
    (fun wi ci =>
      wi * (ci * rs (qmean ((xs.map fun x => x - qmean xs).map fun y => y ^ 2) + eps)))
    w (xs.map fun x => x - qmean xs)

/-- Argument validation of QwenForCausalLM.forward (lines 469-475) at the
    shape level: input_ids must be rank 2; outside prefill position_ids
    must be rank 1 or 2; in prefill position_ids.shape[-1] must equal
    input_ids.shape[-1] (a rank-0 position_ids fails there as well, since
    it has no last dimension). -/
def validateForwardArgs (inputShape posShape : List ℕ) (inPrefill : Bool) : Bool :=
  (inputShape.length == 2) &&
    (if !inPrefill then (posShape.length == 1 || posShape.length == 2)
     else posShape.getLast? == inputShape.getLast?)

/-- torch.arange(0, dim, 2): the even numbers below dim. -/
def arangeStep2 (dim : ℕ) : List ℕ := (List.range ((dim + 1) / 2)).map (2 * ·)

/-- Inverse frequencies of QwenRotaryEmbedding (lines 135-137); rpow
    abstracts the float power, rpow theta e standing for theta ** e. -/
def ropeInvFreq (rpow : ℚ → ℚ → ℚ) (theta : ℚ) (dim : ℕ) : Vec :=
  (arangeStep2 dim).map fun (i : ℕ) => 1 / rpow theta ((i : ℚ) / (dim : ℚ))

/-- Position times inverse-frequency outer product (lines 141-142) for
    positions 0 .. maxPos - 1. -/
def ropeFreqs (invFreq : Vec) (maxPos : ℕ) : Mat :=
  (List.range maxPos).map fun (p : ℕ) => invFreq.map fun f => (p : ℚ) * f

/-- emb = cat((freqs, freqs), dim=-1) (line 143). -/
def ropeEmb (invFreq : Vec) (maxPos : ℕ) : Mat :=
  (ropeFreqs invFreq maxPos).map fun row => row ++ row

/-- cos_cached (line 144) with the float cosine abstracted as cosF; the
    unsqueezed leading batch axis of size one is left implicit. -/
def cosCached (cosF : ℚ → ℚ) (invFreq : Vec) (maxPos : ℕ) : Mat :=
  (ropeEmb invFreq maxPos).map fun row => row.map cosF

/-- sin_cached (line 145) with the float sine abstracted as sinF. -/
def sinCached (sinF : ℚ → ℚ) (invFreq : Vec) (maxPos : ℕ) : Mat :=
  (ropeEmb invFreq maxPos).map fun row => row.map sinF

/-- QwenRotaryEmbedding.forward (lines 147-165): with position ids the
    cached rows at those positions are gathered; without, the first
    seqLen rows are returned, the input tensor entering only through
    seqLen = x.shape[1].  Position ids arrive as a rank-1 list, matching
    the squeeze of a possible leading batch axis. -/
def rotary_forward (cosC sinC : Mat) (seqLen : ℕ) (posIds : Option (List ℕ)) :
    Mat × Mat :=
  match posIds with
  | some ids => (ids.map fun p => cosC.getD p [], ids.map fun p => sinC.getD p [])
  | none => (cosC.take seqLen, sinC.take seqLen)

/-- Elementwise sum of two vectors. -/
def vecAdd (a b : Vec) : Vec := List.zipWith (· + ·) a b

/-- Elementwise product of two vectors. -/
def vecMul (a b : Vec) : Vec := List.zipWith (· * ·) a b

/-- Elementwise sum of two [B, S, H] tensors, the residual additions. -/
def add3 (x y : T3) : T3 := List.zipWith (List.zipWith vecAdd) x y

/-- rotate_half (lines 168-171): negate the second half of the last axis
    and swap the halves. -/
def rotate_half (x : Vec) : Vec :=
  ((x.drop (x.length / 2)).map fun t => -t) ++ x.take (x.length / 2)

/-- One row of apply_rotary_pos_emb: q * cos + rotate_half q * sin. -/
def rotRow (x c s : Vec) : Vec := vecAdd (vecMul x c) (vecMul (rotate_half x) s)

/-- apply_rotary_pos_emb on one head: the [S, D] cos and sin tables are
    broadcast over batch and heads by the unsqueeze of lines 177-178. -/
def rotHead (cosS sinS : Mat) (head : Mat) : Mat :=
  List.zipWith (fun x cs => rotRow x cs.1 cs.2) head (cosS.zip sinS)

/-- apply_rotary_pos_emb (lines 174-181) on [B, H, S, D] query and key. -/
def rot4 (cosS sinS : Mat) (t : T4) : T4 :=
  t.map fun heads => heads.map (rotHead cosS sinS)

/-- apply_rotary_pos_emb returns the rotated query and key as a pair. -/
def apply_rotary_pos_emb (q k : T4) (cosS sinS : Mat) : T4 × T4 :=
  (rot4 cosS sinS q, rot4 cosS sinS k)

/-- Projection + view + permute (lines 270-284): a kernel-1 conv of the
    [B, S, H] stream followed by view(B, nHeads, D, S) and
    permute(0, 1, 3, 2); entry [b, h, s, d] is the dot product of weight
    row h * D + d with hidden row [b, s], so head h is chunk h of the
    weight rows split D at a time. -/
def projHeads (W : Mat) (nHeads D : ℕ) (batchRows : Mat) : List Mat :=
  (splitBySizes (List.replicate nHeads D) W).map fun Wh =>
    batchRows.map fun hrow => Wh.map fun wrow => dot wrow hrow

/-- The per-head norm applied to a [B, H, S, D] tensor: the last-axis
    mean and variance act independently on every [b, h, s] row. -/
def headNorm4 (rs : ℚ → ℚ) (w : Vec) (eps : ℚ) (t : T4) : T4 :=
  t.map fun heads => heads.map fun hd => hd.map (QwenHeadNorm_forward rs w eps)

/-- matmul(q, k.transpose(-2, -1)): row i, column j is the dot product of
    q row i with k row j. -/
def mulT (A B : Mat) : Mat := A.map fun r => B.map fun kr => dot r kr

/-- Scalar multiple of a matrix. -/
def scaleMat (c : ℚ) (A : Mat) : Mat := A.map fun row => row.map fun t => t * c

/-- Scaled raw scores per batch and head (lines 298-300). -/
def attnScores (scale : ℚ) (q k : T4) : T4 :=
  List.zipWith
    (fun qb kb => List.zipWith (fun qh kh => scaleMat scale (mulT qh kh)) qb kb) q k

/-- causal_mask[:, :, :S, :S] (line 303) within one batch element. -/
def sliceMaskSS (S : ℕ) (headsMask : List Mat) : List Mat :=
  headsMask.map fun mm => (mm.take S).map fun row => row.take S

/-- attn_weights + causal_mask_slice (line 304); the mask axis of size
    one broadcasts over the heads. -/
def addMask (S : ℕ) (scores mask : T4) : T4 :=
  List.zipWith
    (fun sb mb => sb.map fun hS => List.zipWith vecAdd hS ((sliceMaskSS S mb).headD []))
    scores mask

/-- torch.softmax over the last axis; e abstracts the float exponential,
    each entry becoming e x divided by the row sum of the e values. -/
def softmaxRow (e : ℚ → ℚ) (r : Vec) : Vec :=
  (r.map e).map fun t => t / (r.map e).sum

/-- Softmax over the last axis of a [B, H, S, S] tensor (line 305). -/
def softmax4 (e : ℚ → ℚ) (t : T4) : T4 :=
  t.map fun heads => heads.map fun m => m.map (softmaxRow e)

/-- matmul(attn_weights, value_states) per batch and head (line 306). -/
def matMul (A B : Mat) : Mat := mulT A B.transpose

/-- permute(0, 2, 1, 3) + view(B, S, nH * D) (lines 307-309) within one
    batch: the same-position rows of all heads are concatenated. -/
def mergeHeadsB (heads : List Mat) : Mat := heads.transpose.map List.flatten

/-- A kernel-1 conv applied per position row (the o_proj of line 310
    after its permute plumbing). -/
def convRows (W : Mat) (rows : Mat) : Mat := rows.map fun r => W.map fun wr => dot wr r

/-- Parameters of one QwenAttention block (lines 220-259); scale models
    the float 1 / sqrt(head_dim) of line 259. -/
structure AttnWeights where
  Wq : Mat
  Wk : Mat
  Wv : Mat
  Wo : Mat
  qNormW : Vec
  kNormW : Vec
  eps : ℚ
  numHeads : ℕ
  numKvHeads : ℕ
  headDim : ℕ
  scale : ℚ

/-- Sequence length read from the [B, S, H] shape (line 268). -/
def dim1Len (t : T3) : ℕ := (t.headD []).length

/-- QwenAttention.forward (lines 261-311), translated statement by
    statement; e abstracts the float exponential of the softmax, rs the
    float reciprocal square root inside the head norms, and cosC, sinC
    are the cached tables of the per-layer QwenRotaryEmbedding. -/
def attnForward (w : AttnWeights) (e rs : ℚ → ℚ) (cosC sinC : Mat)
    (hidden : T3) (mask : Option T4) (posIds : Option (List ℕ)) : T3 :=
  let S := dim1Len hidden
  let q := hidden.map (projHeads w.Wq w.numHeads w.headDim)
  let k := hidden.map (projHeads w.Wk w.numKvHeads w.headDim)
  let v := hidden.map (projHeads w.Wv w.numKvHeads w.headDim)
  let nRep := w.numHeads / w.numKvHeads
  let k2 := repeat_kv k nRep
  let v2 := repeat_kv v nRep
  let qn := headNorm4 rs w.qNormW w.eps q
  let kn := headNorm4 rs w.kNormW w.eps k2
  let cs := rotary_forward cosC sinC S posIds
  let qk := apply_rotary_pos_emb qn kn cs.1 cs.2
  let scores := attnScores w.scale qk.1 qk.2
  let scores2 := match mask with
    | none => scores
    | some m => addMask S scores m
  let probs := softmax4 e scores2
  let ctx := List.zipWith (fun pb vb => List.zipWith matMul pb vb) probs v2
  let merged := ctx.map mergeHeadsB
  merged.map (convRows w.Wo)

/-- Stage 1 of the claimed attention pipeline: the three projections to
    [B, Nq, S, D] and [B, Nkv, S, D]. -/
def qkvProjStage (w : AttnWeights) (hidden : T3) : T4 × T4 × T4 :=
  (hidden.map (projHeads w.Wq w.numHeads w.headDim),
   hidden.map (projHeads w.Wk w.numKvHeads w.headDim),
   hidden.map (projHeads w.Wv w.numKvHeads w.headDim))

/-- Stage 2: expansion of key and value heads to Nq by the grouped-query
    repetition factor; the query passes through. -/
def expandStage (w : AttnWeights) (qkv : T4 × T4 × T4) : T4 × T4 × T4 :=
  (qkv.1, repeat_kv qkv.2.1 (w.numHeads / w.numKvHeads),
   repeat_kv qkv.2.2 (w.numHeads / w.numKvHeads))

/-- Stage 3: per-head normalization of query and key; the value is not
    normalized. -/
def qkNormStage (rs : ℚ → ℚ) (w : AttnWeights) (qkv : T4 × T4 × T4) :
    T4 × T4 × T4 :=
  (headNorm4 rs w.qNormW w.eps qkv.1, headNorm4 rs w.kNormW w.eps qkv.2.1,
   qkv.2.2)

/-- Stage 4: rotary rotation of query and key at the supplied position
    ids; the value is not rotated. -/
def ropeStage (cosC sinC : Mat) (S : ℕ) (posIds : Option (List ℕ))
    (qkv : T4 × T4 × T4) : T4 × T4 × T4 :=
  let cs := rotary_forward cosC sinC S posIds
  let qk := apply_rotary_pos_emb qkv.1 qkv.2.1 cs.1 cs.2
  (qk.1, qk.2, qkv.2.2)

/-- Stage 5: raw scores, query times key transposed, scaled by the
    modelled 1 / sqrt D; the value is carried along. -/
def scoreStage (scale : ℚ) (qkv : T4 × T4 × T4) : T4 × T4 :=
  (attnScores scale qkv.1 qkv.2.1, qkv.2.2)

/-- Stage 6: addition of the causal mask sliced to the live S x S
    submatrix, before the softmax. -/
def maskStage (S : ℕ) (mask : Option T4) (sv : T4 × T4) : T4 × T4 :=
  (match mask with
   | none => sv.1
   | some m => addMask S sv.1 m, sv.2)

/-- Stage 7: softmax over the last axis. -/
def softmaxStage (e : ℚ → ℚ) (sv : T4 × T4) : T4 × T4 := (softmax4 e sv.1, sv.2)

/-- Stage 8: multiplication of the attention weights by the value. -/
def valueStage (sv : T4 × T4) : T4 :=
  List.zipWith (fun pb vb => List.zipWith matMul pb vb) sv.1 sv.2

/-- Stage 9: head merge back to [B, S, H]. -/
def mergeStage (t : T4) : T3 := t.map mergeHeadsB

/-- Stage 10: output projection. -/
def outputStage (w : AttnWeights) (t : T3) : T3 := t.map (convRows w.Wo)

/-- Parameters of one QwenMLP block (lines 192-204). -/
structure MLPWeights where
  gateW : Mat
  upW : Mat
  downW : Mat

/-- SiLU through the abstract float exponential: x times sigmoid x. -/
def siluFn (e : ℚ → ℚ) (x : ℚ) : ℚ := x * (1 / (1 + e (-x)))

/-- QwenMLP.forward (lines 206-217) on a [B, S, H] stream: the permute
    and unsqueeze make each conv act per position, so position row r maps
    to down(silu(gate r) * up r), computed step by step as in the
    source. -/
def mlpForward (mw : MLPWeights) (e : ℚ → ℚ) (x : T3) : T3 :=
  x.map fun rows => rows.map fun r =>
    let a := mw.gateW.map fun wr => dot wr r
    let b := mw.upW.map fun wr => dot wr r
    let c := a.map (siluFn e)
    let d := vecMul c b
    mw.downW.map fun wr => dot wr d

/-- The full-hidden RMSNorm on a [B, S, H] stream: rowwise on the last
    axis. -/
def rmsNorm3 (rs : ℚ → ℚ) (w : Vec) (eps : ℚ) (t : T3) : T3 :=
  t.map fun rows => rows.map (QwenRMSNorm_forward rs w eps)

/-- Parameters of one QwenDecoderLayer (lines 314-322). -/
structure LayerWeights where
  attn : AttnWeights
  mlp : MLPWeights
  inputLnW : Vec
  postLnW : Vec
  eps : ℚ

/-- QwenDecoderLayer.forward (lines 324-342): norm, attention, residual,
    norm, mlp, residual. -/
def layerForward (lw : LayerWeights) (e rs : ℚ → ℚ) (cosC sinC : Mat)
    (hidden : T3) (mask : Option T4) (posIds : Option (List ℕ)) : T3 :=
  let h1 := rmsNorm3 rs lw.inputLnW lw.eps hidden
  let a := attnForward lw.attn e rs cosC sinC h1 mask posIds
  let h2 := add3 hidden a
  let m := mlpForward lw.mlp e (rmsNorm3 rs lw.postLnW lw.eps h2)
  add3 h2 m

/-- Parameters of the decoder stack QwenModel (lines 345-355). -/
structure ModelWeights where
  embed : Mat
  layers : List LayerWeights
  normW : Vec
  eps : ℚ

/-- Embedding lookup (line 366). -/
def embedTokens (table : Mat) (ids : List (List ℕ)) : T3 :=
  ids.map fun row => row.map fun t => table.getD t []

/-- The embedding followed by the decoder layers in order, exactly the
    part of QwenModel.forward before the mode switch (lines 366-368). -/
def stackRaw (mw : ModelWeights) (e rs : ℚ → ℚ) (cosC sinC : Mat)
    (inputIds : List (List ℕ)) (mask : Option T4) (posIds : Option (List ℕ)) : T3 :=
  mw.layers.foldl
    (fun h lw => layerForward lw e rs cosC sinC h mask posIds)
    (embedTokens mw.embed inputIds)

/-- QwenModel.forward (lines 357-373): embed, fold the layers, then in
    prefill mode return the raw hidden state, otherwise apply the final
    normalization first. -/
def modelForward (mw : ModelWeights) (e rs : ℚ → ℚ) (cosC sinC : Mat)
    (inputIds : List (List ℕ)) (mask : Option T4) (posIds : Option (List ℕ))
    (inPrefill : Bool) : T3 :=
  let hs0 := embedTokens mw.embed inputIds
  let hs1 := mw.layers.foldl
    (fun h lw => layerForward lw e rs cosC sinC h mask posIds) hs0
  if inPrefill then hs1 else rmsNorm3 rs mw.normW mw.eps hs1

/-- QwenForCausalLM.prefill_kv_cache (lines 561-579): slices the causal
    mask rows to the live sequence length, runs the stack in prefill mode
    inside torch.no_grad (gradient bookkeeping has no observable in this
    functional model), discards the result and returns nothing. -/
def prefill_kv_cache (mw : ModelWeights) (e rs : ℚ → ℚ) (cosC sinC : Mat)
    (inputIds : List (List ℕ)) (posIds : Option (List ℕ)) (mask : Option T4) :
    Unit :=
  let S := (inputIds.headD []).length
  let causalSlice := mask.map fun m => m.map fun bm => bm.map fun mm => mm.take S
  let _ := modelForward mw e rs cosC sinC inputIds causalSlice posIds true
  ()

/-- Substring test, the Python in operator on strings: pat occurs in s
    exactly when splitting s on pat yields more than one piece. -/
def containsSub (s pat : String) : Bool := (s.splitOn pat).length != 1

/-- Key canonicalization of QwenModel.load_pretrained_weights (line 390):
    a key starting with the namespace marker has every occurrence of the
    marker replaced by the empty string. -/
def stripModelKey (k : String) : String :=
  if k.startsWith "model." then k.replace "model." "" else k

/-- Keys of the conv_state mapping (lines 388-407): canonicalized keys
    with any key containing the raw head name skipped; the value reshape
    to [out, in, 1, 1] does not affect the key bookkeeping modelled
    here. -/
def convStateKeys (ckptKeys : List String) : List String :=
  (ckptKeys.map stripModelKey).filter fun nk => !containsSub nk "lm_head.weight"

/-- Missing keys reported by the strict=False bulk assignment (line 409)
    after excluding the tolerated rotary buffer names (line 410):
    parameter names of the decoder stack absent from conv_state. -/
def missingKeys (modelKeys ckptKeys : List String) : List String :=
  (modelKeys.filter fun m => !(convStateKeys ckptKeys).contains m).filter
    fun m => !containsSub m "rotary_emb.inv_freq"

/-- Unexpected keys reported by the bulk assignment: conv_state keys
    matching no parameter of the decoder stack. -/
def unexpectedKeys (modelKeys ckptKeys : List String) : List String :=
  (convStateKeys ckptKeys).filter fun k => !modelKeys.contains k

/-- QwenModel.load_pretrained_weights (lines 378-414) at the level of its
    observable outcome: the parameter-name set of the stack is abstract
    and the checkpoint is the list of tensor names found in the
    safetensors files; a FileNotFoundError on an absent directory is the
    error case, and Python truthiness of the two key lists decides the
    returned boolean. -/
def model_load_pretrained_weights (modelKeys : List String) (dirExists : Bool)
    (ckptKeys : List String) : Except Unit Bool :=
  if !dirExists then .error ()
  else .ok ((missingKeys modelKeys ckptKeys).isEmpty
    && (unexpectedKeys modelKeys ckptKeys).isEmpty)

/-- QwenForCausalLM.load_pretrained_weights (lines 581-636): first the
    decoder-stack load runs (propagating its error and its false return),
    then the vocabulary-head weight is searched under its exact
    unprefixed name among the raw checkpoint keys; success requires that
    search to hit.  The split assignment of the found weight is the one
    modelled by lmHeadSplitForward. -/
def load_pretrained_weights (modelKeys : List String) (dirExists : Bool)
    (ckptKeys : List String) : Except Unit Bool :=
  match model_load_pretrained_weights modelKeys dirExists ckptKeys with
  | .error e => .error e
  | .ok false => .ok false
  | .ok true => .ok (ckptKeys.contains "lm_head.weight")

/-- Module-level LM head configuration constants (lines 31-36). -/
def ENABLE_CONV2D : Bool := true

/-- Line 32: split vocab into 2 parts. -/
def ENABLE_VACAB_SPLIT : Bool := true

/-- Line 33: split vocab into 8 parts. -/
def ENABLE_VACAB_SPLIT8 : Bool := false

/-- Line 34: split vocab into 16 parts. -/
def ENABLE_VACAB_SPLIT16 : Bool := true

/-- Line 35: return separate logits arrays for CoreML. -/
def ENABLE_LOGITS2 : Bool := true

/-- Line 36: CoreML-specific returns. -/
def ENABLE_COREML : Bool := false

/-- The five construction shapes of the LM head (lines 427-458); each
    split constructor records the per-shard output sizes. -/
inductive HeadConfig where
  | split16 (sizes : List ℕ)
  | split8 (sizes : List ℕ)
  | split2 (s1 s2 : ℕ)
  | single (v : ℕ)
  | linear (v : ℕ)
deriving DecidableEq

/-- QwenForCausalLM head construction (lines 427-458), following the
    if/elif chain over the module constants. -/
def initHead (vocabSize : ℕ) : HeadConfig :=
  if ENABLE_CONV2D then
    if ENABLE_VACAB_SPLIT16 then
      .split16 ((List.range 16).map fun i =>
        vocabSize / 16 + if i < vocabSize % 16 then 1 else 0)
    else if ENABLE_VACAB_SPLIT8 then
      .split8 ((List.range 8).map fun i =>
        vocabSize / 8 + if i < vocabSize % 8 then 1 else 0)
    else if ENABLE_VACAB_SPLIT then
      .split2 (vocabSize / 2) (vocabSize / 2)
    else .single vocabSize
  else .linear vocabSize

/-- Shape of the value the vocabulary projection of forward returns:
    either the separate shard outputs or one merged logits tensor. -/
inductive HeadOutput where
  | shards (parts : List Vec)
  | merged (logits : Vec)
deriving DecidableEq

/-- Vocabulary projection of QwenForCausalLM.forward (lines 497-559) for
    one hidden vector, following the if/elif chain over the module
    constants; shardsW are the per-shard weight matrices of whichever
    split is active, and the separate-shards return is taken exactly when
    enable_coreml and ENABLE_LOGITS2 hold. -/
def lmHeadForward (enableCoreml : Bool) (shardsW : List Mat) (h : Vec) : HeadOutput :=
  if ENABLE_CONV2D then
    if ENABLE_VACAB_SPLIT16 then
      let parts := shardsW.map fun Wi => convProj Wi h
      if enableCoreml && ENABLE_LOGITS2 then .shards parts
      else .merged parts.flatten
    else if ENABLE_VACAB_SPLIT8 then
      let parts := shardsW.map fun Wi => convProj Wi h
      if enableCoreml && ENABLE_LOGITS2 then .shards parts
      else .merged parts.flatten
    else if ENABLE_VACAB_SPLIT then
      let parts := shardsW.map fun Wi => convProj Wi h
      if enableCoreml && ENABLE_LOGITS2 then .shards parts
      else .merged parts.flatten
    else .merged (convProj (shardsW.getD 0 []) h)
  else .merged (convProj (shardsW.getD 0 []) h)

/-- Labels for the branches of the three if/elif chains switching on the
    module constants: constructor, forward projection, head loader. -/
inductive HeadBranch where
  | b16
  | b8
  | b2
  | b1
  | blinear
deriving DecidableEq

/-- The branch taken by the if/elif chains of the constructor (lines
    427-458), the forward projection (lines 497-557) and the head-weight
    loader (lines 601-631), which all test the same module constants in
    the same order. -/
def headBranch : HeadBranch :=
  if ENABLE_CONV2D then
    if ENABLE_VACAB_SPLIT16 then .b16
    else if ENABLE_VACAB_SPLIT8 then .b8
    else if ENABLE_VACAB_SPLIT then .b2
    else .b1
  else .blinear

end Qwen

namespace Qwen

theorem sum_map_range_ite (a : ℕ) (m : ℕ) :
    ∀ N, (((List.range N).map fun i => a + if i < m then 1 else 0).sum)
      = N * a + min m N := by
  intro N
  induction N with
  | zero => simp
  | succ N ih =>
    rw [List.range_succ, List.map_append, List.sum_append, ih]
    by_cases h : N < m
    · have hm : min m N = N := by omega
      have hm2 : min m (N + 1) = N + 1 := by omega
      simp [h, hm, hm2, Nat.succ_mul]
      omega
    · have hm : min m N = m := by omega
      have hm2 : min m (N + 1) = m := by omega
      simp [h, hm, hm2, Nat.succ_mul]
      omega

theorem splitSizes_sum (V N : ℕ) (hN : 0 < N) : (splitSizes V N).sum = V := by
  unfold splitSizes
  rw [sum_map_range_ite]
  have h1 : V % N < N := Nat.mod_lt _ hN
  have h2 : min (V % N) N = V % N := by omega
  rw [h2]
  exact Nat.div_add_mod V N

theorem flatten_splitBySizes {α : Type} :
    ∀ (sizes : List ℕ) (l : List α), (splitBySizes sizes l).flatten = l.take sizes.sum := by
  intro sizes
  induction sizes with
  | nil => intro l; simp [splitBySizes]
  | cons s ss ih =>
    intro l
    simp only [splitBySizes, List.flatten_cons, List.sum_cons, ih]
    rw [List.take_add]

/-- C1: projecting a hidden vector through the partitioned vocabulary head
    and concatenating the N partial outputs along the vocabulary axis in
    partition order yields exactly the logits of a single unsplit
    projection by the whole [V, H] weight matrix, with the partition
    giving V // N rows to each of the N contiguous blocks and one extra
    row to each of the first V mod N blocks. -/
theorem lm_head_partition_exact (W : Mat) (h : Vec) (V N : ℕ)
    (hW : W.length = V) (hN : 0 < N) :
    lmHeadSplitForward V N W h = convProj W h := by
  unfold lmHeadSplitForward convProj
  rw [← List.map_flatten, flatten_splitBySizes, splitSizes_sum V N hN, ← hW,
    List.take_length]

theorem lm_head_partition_exact_witness :
    lmHeadSplitForward 5 3 [[1], [2], [3], [4], [5]] [2]
      = convProj [[1], [2], [3], [4], [5]] [2] :=
  lm_head_partition_exact [[1], [2], [3], [4], [5]] [2] 5 3 rfl (by decide)

theorem flatten_map_replicate_getElem {α : Type} :
    ∀ (l : List α) (n i j : ℕ), j < n →
      ((l.map (List.replicate n)).flatten)[i * n + j]? = l[i]? := by
  intro l
  induction l with
  | nil => intro n i j _; simp
  | cons a t ih =>
    intro n i j hj
    simp only [List.map_cons, List.flatten_cons]
    cases i with
    | zero =>
      rw [Nat.zero_mul, Nat.zero_add,
        List.getElem?_append_left (by simpa using hj)]
      simp [hj]
    | succ i =>
      have harith : (i + 1) * n + j = (List.replicate n a).length + (i * n + j) := by
        simp [Nat.succ_mul]; omega
      rw [harith, List.getElem?_append_right (Nat.le_add_right _ _),
        Nat.add_sub_cancel_left]
      simpa using ih n i j hj

/-- C4: for a [B, Nkv, S, D] tensor, grouped-query expansion by factor
    n_rep places the data of kv head i at query-head indices i * n_rep
    through (i + 1) * n_rep - 1, contiguous replication and not
    interleaving, in every batch; and with n_rep = 1 the input tensor is
    returned unchanged. -/
theorem repeat_kv_grouping (hs : T4) (nRep b i j : ℕ) (hj : j < nRep) :
    ((repeat_kv hs nRep).getD b [])[i * nRep + j]? = (hs.getD b [])[i]? ∧
      repeat_kv hs 1 = hs := by
  refine ⟨?_, by simp [repeat_kv]⟩
  unfold repeat_kv
  by_cases h1 : nRep = 1
  · subst h1
    have hj0 : j = 0 := by omega
    subst hj0
    simp
  · rw [if_neg h1, List.getD_eq_getElem?_getD, List.getElem?_map,
      List.getD_eq_getElem?_getD]
    cases hb : hs[b]? with
    | none => simp
    | some bt => simpa using flatten_map_replicate_getElem bt nRep i j hj

theorem repeat_kv_grouping_witness :
    ((repeat_kv [[[[1]], [[2]]]] 2).getD 0 [])[1 * 2 + 1]?
        = (([[[[1]], [[2]]]] : T4).getD 0 [])[1]? ∧
      repeat_kv [[[[1]], [[2]]]] 1 = [[[[1]], [[2]]]] :=
  repeat_kv_grouping [[[[1]], [[2]]]] 2 0 1 1 (by decide)

/-- C3: in a non-prefill forward call with current position p, the
    causal-LM head gathers exactly one row of the decoder-stack output
    along the sequence axis at index p, and the selected [B, 1, H] tensor
    equals the slice hidden_states[:, p:p+1, :] exactly. -/
theorem decode_position_extraction (hs : T3) (p : ℕ)
    (hp : ∀ b ∈ hs, p < b.length) :
    extractHidden hs p false = sliceOneRow hs p := by
  unfold extractHidden index_select_dim1 sliceOneRow
  rw [if_neg (by simp)]
  refine List.map_congr_left fun b hb => ?_
  have hpb := hp b hb
  rw [List.drop_eq_getElem_cons hpb, List.take_succ_cons, List.take_zero,
    List.map_cons, List.map_nil, List.getD_eq_getElem _ _ hpb]

theorem decode_position_extraction_witness :
    extractHidden [[[1], [2], [3], [4], [5]]] 3 false
      = sliceOneRow [[[1], [2], [3], [4], [5]]] 3 :=
  decode_position_extraction [[[1], [2], [3], [4], [5]]] 3 (by decide)

theorem sum_map_sub_const (xs : Vec) (c : ℚ) :
    (xs.map fun x => x - c).sum = xs.sum - xs.length * c := by
  induction xs with
  | nil => simp
  | cons a t ih =>
    simp only [List.map_cons, List.sum_cons, ih, List.length_cons]
    push_cast
    ring

theorem qmean_center (xs : Vec) :
    qmean (xs.map fun x => x - qmean xs) = 0 := by
  rcases eq_or_ne xs [] with h | h
  · subst h; simp [qmean]
  · have hn : (xs.length : ℚ) ≠ 0 :=
      Nat.cast_ne_zero.mpr fun hl => h (List.length_eq_zero.mp hl)
    unfold qmean
    rw [sum_map_sub_const, List.length_map]
    field_simp

/-- C5: both normalization primitives preserve the shape of a [..., d]
    input row (given a length-d scale) and compute exactly the
    mean-centered formula: subtract the last-axis mean, then scale by the
    learned per-channel weight and the reciprocal square root of the
    centered variance plus eps, with no bias; this holds for every
    interpretation rs of the float reciprocal square root, the true
    RMSNorm text below each return statement being unreachable. -/
theorem norm_primitives_centered (rs : ℚ → ℚ) (w : Vec) (eps : ℚ) (xs : Vec)
    (hw : w.length = xs.length) :
    QwenRMSNorm_forward rs w eps xs = centeredNormSpec rs w eps xs ∧
      QwenHeadNorm_forward rs w eps xs = centeredNormSpec rs w eps xs ∧
      (QwenRMSNorm_forward rs w eps xs).length = xs.length ∧
      (QwenHeadNorm_forward rs w eps xs).length = xs.length := by
  have hkey : layer_norm rs w eps (xs.map fun x => x - qmean xs)
      = centeredNormSpec rs w eps xs := by
    unfold layer_norm centeredNormSpec
    rw [qmean_center]
    simp
  have hlen : (layer_norm rs w eps (xs.map fun x => x - qmean xs)).length
      = xs.length := by
    unfold layer_norm
    simp [hw]
  exact ⟨hkey, hkey, by simpa [QwenRMSNorm_forward] using hlen,
    by simpa [QwenHeadNorm_forward] using hlen⟩

theorem norm_primitives_centered_witness :
    QwenRMSNorm_forward id [1, 2] 1 [3, 5] = centeredNormSpec id [1, 2] 1 [3, 5] ∧
      QwenHeadNorm_forward id [1, 2] 1 [3, 5] = centeredNormSpec id [1, 2] 1 [3, 5] ∧
      (QwenRMSNorm_forward id [1, 2] 1 [3, 5]).length = ([3, 5] : Vec).length ∧
      (QwenHeadNorm_forward id [1, 2] 1 [3, 5]).length = ([3, 5] : Vec).length :=
  norm_primitives_centered id [1, 2] 1 [3, 5] (by decide)

/-- C7: the public forward validation passes exactly when the token-id
    tensor is rank 2, the position ids are rank 1 or rank 2 whenever not
    in prefill mode, and in prefill mode the last dimension of the
    position ids exists and equals the token sequence length. -/
theorem forward_validation (inputShape posShape : List ℕ) (inPrefill : Bool) :
    validateForwardArgs inputShape posShape inPrefill = true ↔
      (inputShape.length = 2 ∧
        (inPrefill = false → posShape.length = 1 ∨ posShape.length = 2) ∧
        (inPrefill = true → posShape.getLast? = inputShape.getLast?)) := by
  cases inPrefill <;> simp [validateForwardArgs]

theorem cached_row (f : ℚ → ℚ) (iv : Vec) (maxPos p : ℕ) (hp : p < maxPos) :
    ((ropeEmb iv maxPos).map fun row => row.map f).getD p []
      = (iv.map fun g => (p : ℚ) * g).map f ++ (iv.map fun g => (p : ℚ) * g).map f := by
  unfold ropeEmb ropeFreqs
  rw [List.getD_eq_getElem?_getD, List.getElem?_map, List.getElem?_map,
    List.getElem?_map, List.getElem?_range hp]
  simp

/-- C9: the rotary tables are built from dim / 2 inverse frequencies with
    the frequency block concatenated with itself, so each cached cosine
    and sine row repeats at offset dim / 2: entry d + dim / 2 equals
    entry d for every d below dim / 2 and every cached position; a lookup
    with explicit position ids returns exactly the cached rows at those
    positions, and a lookup without position ids returns the first seqLen
    cached rows.  This holds for every interpretation of the float power,
    cosine and sine kernels. -/
theorem rotary_tables (rpow : ℚ → ℚ → ℚ) (cosF sinF : ℚ → ℚ) (theta : ℚ)
    (dim maxPos p d seqLen : ℕ) (ids : List ℕ) (cosC sinC : Mat)
    (hdim : dim % 2 = 0) (hp : p < maxPos) (hd : d < dim / 2) :
    (ropeInvFreq rpow theta dim).length = dim / 2 ∧
      ((cosCached cosF (ropeInvFreq rpow theta dim) maxPos).getD p [])[d + dim / 2]?
        = ((cosCached cosF (ropeInvFreq rpow theta dim) maxPos).getD p [])[d]? ∧
      ((sinCached sinF (ropeInvFreq rpow theta dim) maxPos).getD p [])[d + dim / 2]?
        = ((sinCached sinF (ropeInvFreq rpow theta dim) maxPos).getD p [])[d]? ∧
      rotary_forward cosC sinC seqLen (some ids)
        = (ids.map fun q => cosC.getD q [], ids.map fun q => sinC.getD q []) ∧
      rotary_forward cosC sinC seqLen none = (cosC.take seqLen, sinC.take seqLen) := by
  have hlen : (ropeInvFreq rpow theta dim).length = dim / 2 := by
    unfold ropeInvFreq arangeStep2
    simp only [List.length_map, List.length_range]
    omega
  have hdup : ∀ f : ℚ → ℚ,
      (((ropeEmb (ropeInvFreq rpow theta dim) maxPos).map fun row =>
        row.map f).getD p [])[d + dim / 2]?
      = (((ropeEmb (ropeInvFreq rpow theta dim) maxPos).map fun row =>
        row.map f).getD p [])[d]? := by
    intro f
    rw [cached_row f _ maxPos p hp]
    have hrlen : (((ropeInvFreq rpow theta dim).map fun g => (p : ℚ) * g).map f).length
        = dim / 2 := by
      simp [hlen]
    rw [List.getElem?_append_right (by omega), hrlen, Nat.add_sub_cancel,
      List.getElem?_append_left (by omega)]
  exact ⟨hlen, hdup cosF, hdup sinF, rfl, rfl⟩

theorem rotary_tables_witness :
    (ropeInvFreq (fun _ _ => 1) 2 4).length = 4 / 2 ∧
      ((cosCached id (ropeInvFreq (fun _ _ => 1) 2 4) 3).getD 1 [])[1 + 4 / 2]?
        = ((cosCached id (ropeInvFreq (fun _ _ => 1) 2 4) 3).getD 1 [])[1]? ∧
      ((sinCached id (ropeInvFreq (fun _ _ => 1) 2 4) 3).getD 1 [])[1 + 4 / 2]?
        = ((sinCached id (ropeInvFreq (fun _ _ => 1) 2 4) 3).getD 1 [])[1]? ∧
      rotary_forward [[3]] [[4]] 1 (some [2, 0])
        = ([2, 0].map fun q => ([[3]] : Mat).getD q [],
           [2, 0].map fun q => ([[4]] : Mat).getD q []) ∧
      rotary_forward [[3]] [[4]] 1 none
        = (([[3]] : Mat).take 1, ([[4]] : Mat).take 1) :=
  rotary_tables (fun _ _ => 1) id id 2 4 3 1 1 1 [2, 0] [[3]] [[4]]
    (by decide) (by decide) (by decide)

/-- C8: the load raises the not-found error exactly when the checkpoint
    directory is absent; otherwise it returns true if and only if the
    decoder-stack assignment reported no missing keys (after excluding
    the rotary buffer name) and no unexpected keys and the vocabulary
    head weight was found under its exact unprefixed name; every other
    outcome returns false. -/
theorem load_weights_outcome (modelKeys ckptKeys : List String) (dirExists : Bool) :
    (load_pretrained_weights modelKeys dirExists ckptKeys = .error ()
        ↔ dirExists = false) ∧
      (load_pretrained_weights modelKeys dirExists ckptKeys = .ok true ↔
        (dirExists = true ∧ missingKeys modelKeys ckptKeys = [] ∧
          unexpectedKeys modelKeys ckptKeys = [] ∧
          ckptKeys.contains "lm_head.weight" = true)) := by
  cases dirExists
  · simp [load_pretrained_weights, model_load_pretrained_weights]
  · have e1 : (missingKeys modelKeys ckptKeys).isEmpty
        = decide (missingKeys modelKeys ckptKeys = []) := by
      by_cases h : missingKeys modelKeys ckptKeys = [] <;> simp [h]
    have e2 : (unexpectedKeys modelKeys ckptKeys).isEmpty
        = decide (unexpectedKeys modelKeys ckptKeys = []) := by
      by_cases h : unexpectedKeys modelKeys ckptKeys = [] <;> simp [h]
    by_cases h1 : missingKeys modelKeys ckptKeys = [] <;>
      by_cases h2 : unexpectedKeys modelKeys ckptKeys = [] <;>
      simp [load_pretrained_weights, model_load_pretrained_weights,
        e1, e2, h1, h2]

/-- C10: under the checked-in module constants the 16-way split head is
    the only active configuration: construction creates exactly sixteen
    shard projections, sized vocab // 16 plus one extra row for each of
    the first vocab mod 16 shards, their sizes summing back to vocab; the
    8-way, 2-way, single-Conv2d and linear branches of construction,
    forward projection and head loading are never taken; and with the
    default enable_coreml = false the forward projection returns the
    single concatenated logits tensor, never the separate shard
    outputs. -/
theorem split16_only_configuration (vocabSize : ℕ) (shardsW : List Mat) (h : Vec) :
    initHead vocabSize = .split16 (splitSizes vocabSize 16) ∧
      (splitSizes vocabSize 16).length = 16 ∧
      (splitSizes vocabSize 16).sum = vocabSize ∧
      headBranch = .b16 ∧
      lmHeadForward false shardsW h
        = .merged (shardsW.map fun Wi => convProj Wi h).flatten :=
  ⟨rfl, by simp [splitSizes], splitSizes_sum vocabSize 16 (by decide), rfl, rfl⟩

/-- C2: QwenAttention.forward is exactly the composition, in this order,
    of the q/k/v projections, the grouped-query expansion of key and
    value heads to Nq, the per-head normalization of query and key (value
    untouched), the rotary rotation of query and key at the supplied
    position ids (value untouched), the raw scores query times key
    transposed scaled by the modelled 1 / sqrt D, the addition of the
    causal mask sliced to the live S x S submatrix, the softmax over the
    last axis, the multiplication by value, the head merge back to
    [B, S, H], and the output projection. -/
theorem attention_pipeline_order (w : AttnWeights) (e rs : ℚ → ℚ)
    (cosC sinC : Mat) (hidden : T3) (mask : Option T4)
    (posIds : Option (List ℕ)) :
    attnForward w e rs cosC sinC hidden mask posIds
      = outputStage w (mergeStage (valueStage (softmaxStage e (maskStage
          (dim1Len hidden) mask (scoreStage w.scale (ropeStage cosC sinC
          (dim1Len hidden) posIds (qkNormStage rs w (expandStage w
          (qkvProjStage w hidden))))))))) := by
  cases mask <;> rfl

/-- C6: in prefill mode the decoder stack returns the raw output of the
    last decoder layer with the final normalization skipped; in normal
    mode the final normalization is applied before returning; and the
    prefill entry point runs the stack in prefill mode only, discards the
    result and returns no value (its torch.no_grad context has no
    observable effect in this functional model). -/
theorem decoder_stack_modes (mw : ModelWeights) (e rs : ℚ → ℚ)
    (cosC sinC : Mat) (inputIds : List (List ℕ)) (mask : Option T4)
    (posIds : Option (List ℕ)) :
    modelForward mw e rs cosC sinC inputIds mask posIds true
        = stackRaw mw e rs cosC sinC inputIds mask posIds ∧
      modelForward mw e rs cosC sinC inputIds mask posIds false
        = rmsNorm3 rs mw.normW mw.eps
            (stackRaw mw e rs cosC sinC inputIds mask posIds) ∧
      prefill_kv_cache mw e rs cosC sinC inputIds posIds mask = () :=
  ⟨rfl, rfl, rfl⟩

end Qwen
